import Mathlib

/-!
Shallow embedding of the riboflavin backend transcript parsers
(`src/backend/main.py`): the segmenters, speaker normalization, column/note
assignment and edge generation of `parse_daily_covids_wake_transcript` and
`parse_transcript_to_notes`.  Python strings are modelled as `List Char`
(ASCII-faithful); the hidden global PRNG consumed by `random.choice` is made
explicit as a choice oracle argument; file I/O (delegated by the code to the
HTTP layer) is outside the model, which starts from the in-memory text.
-/

namespace Riboflavin

/-- ASCII subset of Python's whitespace class (`str.strip`, regex `\s`). -/
def pySpace (c : Char) : Bool :=
  c == ' ' || c == '\t' || c == '\n' || c == '\r' || c == '\x0b' || c == '\x0c'

/-- Regex class `[a-z]`. -/
def isAsciiLower (c : Char) : Bool := 'a' ≤ c && c ≤ 'z'

/-- Regex class `[A-Z]`. -/
def isAsciiUpper (c : Char) : Bool := 'A' ≤ c && c ≤ 'Z'

/-- An ASCII alphabetic character. -/
def isAsciiAlpha (c : Char) : Bool := isAsciiUpper c || isAsciiLower c

/-- Python `str.lstrip()`. -/
def lstripCs (cs : List Char) : List Char := cs.dropWhile pySpace

/-- Python `str.rstrip()`. -/
def rstripCs (cs : List Char) : List Char := (cs.reverse.dropWhile pySpace).reverse

/-- Python `str.strip()`. -/
def stripCs (cs : List Char) : List Char := rstripCs (lstripCs cs)

/-- Python `str.lower()` (ASCII). -/
def lowerCs (cs : List Char) : List Char := cs.map Char.toLower

/-- Python `str.split('\n')`: on the empty string this yields `[""]`. -/
def splitLinesCs : List Char → List (List Char)
  | [] => [[]]
  | c :: cs =>
    if c == '\n' then [] :: splitLinesCs cs
    else
      match splitLinesCs cs with
      | [] => [[c]]
      | l :: ls => (c :: l) :: ls

/-- Helper for `pySplitWs`, accumulating the current token reversed. -/
def splitWsAux : List Char → List Char → List (List Char)
  | [], acc => if acc.isEmpty then [] else [acc.reverse]
  | c :: cs, acc =>
    if pySpace c then
      if acc.isEmpty then splitWsAux cs [] else acc.reverse :: splitWsAux cs []
    else splitWsAux cs (c :: acc)

/-- Python `str.split()` with no argument: split on whitespace runs, dropping
empty tokens. -/
def pySplitWs (cs : List Char) : List (List Char) := splitWsAux cs []

/-- Python `str.capitalize()`: first character uppercased, rest lowercased. -/
def capitalizeCs : List Char → List Char
  | [] => []
  | c :: cs => c.toUpper :: cs.map Char.toLower

/-- Python `'\n'.join(...)`. -/
def joinNl (ls : List (List Char)) : List Char := List.intercalate ['\n'] ls

/-- Python `' '.join(...)`. -/
def joinSpace (ls : List (List Char)) : List Char := List.intercalate [' '] ls

/-- Python `str.startswith` on char lists. -/
def isPrefixCs : List Char → List Char → Bool
  | [], _ => true
  | _ :: _, [] => false
  | a :: as, b :: bs => a == b && isPrefixCs as bs

/-- Python `needle in hay` substring test on char lists. -/
def isInfixCs (needle : List Char) : List Char → Bool
  | [] => isPrefixCs needle []
  | c :: cs => isPrefixCs needle (c :: cs) || isInfixCs needle cs

/-- `re.match(r'^([a-z]+\s+[a-z]+)$', s)`: exactly two whitespace-separated
runs of lowercase letters and nothing else.  The character classes `[a-z]`
and `\s` are disjoint, so greedy matching needs no backtracking and the
regex is equivalent to this takeWhile/dropWhile decomposition. -/
def matchTwoAlphaTokens (cs : List Char) : Bool :=
  let a1 := cs.takeWhile isAsciiLower
  let r1 := cs.dropWhile isAsciiLower
  let s1 := r1.takeWhile pySpace
  let r2 := r1.dropWhile pySpace
  let a2 := r2.takeWhile isAsciiLower
  let r3 := r2.dropWhile isAsciiLower
  !a1.isEmpty && !s1.isEmpty && !a2.isEmpty && r3.isEmpty

/-- `main.py:91` — a speaker-label line of the daily-covids-wake segmenter:
the two-lowercase-token regex applied to `line.lower()`. -/
def isSpeakerLine (line : List Char) : Bool := matchTwoAlphaTokens (lowerCs line)

/-- Python `int(...)` on a digit string (the parser only ever applies it to
the numeric part of a well-formed `column-<n>` id). -/
def natFromDigits (cs : List Char) : Nat :=
  cs.foldl (fun a c => a * 10 + (c.toNat - 48)) 0

/-- Python `str.replace('column-', '')`: remove every occurrence of the
seven-character label `column-`, scanning left to right. -/
def stripColumnLabel : List Char → List Char
  | 'c' :: 'o' :: 'l' :: 'u' :: 'm' :: 'n' :: '-' :: rest => stripColumnLabel rest
  | c :: cs => c :: stripColumnLabel cs
  | [] => []

/-- `main.py:172` — `int(columnId.replace('column-', '')) - 1`. -/
def colIdxOfId (s : String) : Int :=
  (natFromDigits (stripColumnLabel s.data) : Int) - 1

/-! ## Data model (§3 of the spec) -/

structure Note where
  id : String
  content : String
  columnId : String
  deriving Repr, DecidableEq

structure Column where
  id : String
  title : String
  notes : List Note
  deriving Repr, DecidableEq

structure Edge where
  id : String
  source : String
  target : String
  sourceHandle : Option String
  targetHandle : Option String
  type : String
  deriving Repr, DecidableEq

structure TranscriptGraph where
  columns : List Column
  edges : List Edge
  deriving Repr, DecidableEq

/-- Placeholder used with `List.getD`; never produced by the parsers. -/
def noNote : Note := ⟨"", "", ""⟩

/-! ## `parse_daily_covids_wake_transcript` (`main.py:52-196`)

The file read (`main.py:54-60`) is I/O delegated to the collaborator layer;
the model starts from the in-memory `content` string.  `random.choice` at
`main.py:163` consumes hidden global PRNG state, modelled as an explicit
oracle `choice : Nat → Nat` giving the index drawn for each edge. -/

/-- `main.py:65` — titles whose paragraphs are dropped. -/
def excludedColumns : List String := ["Background Reading", "Site Index"]

/-- `main.py:76-81` — the preset column list. -/
def presetColumns : List Column :=
  [⟨"column-1", "Michael Barbaro", []⟩,
   ⟨"column-2", "Stephen Macedo", []⟩,
   ⟨"column-3", "Frances Lee", []⟩,
   ⟨"column-4", "", []⟩]

/-- Mutable loop state of the segmenter (`main.py:82-86`).  `columnMap` maps
a normalized speaker title to the id of the column it owns; mutation of the
shared column dict is modelled by updating the column with that id in
`columns` (ids are unique by construction). -/
structure DcwState where
  columns : List Column
  columnMap : List (String × String)
  notes : List Note
  noteCounter : Nat
  currentSpeaker : Option (List Char)
  currentParagraph : List (List Char)
  deriving Repr

/-- `main.py:82-86` — initial state. -/
def dcwInit : DcwState := ⟨presetColumns, [], [], 1, none, []⟩

/-- `column['notes'].append(note)` on the column dict with id `cid`, seen
through the `columns` list that aliases it. -/
def appendNoteToColumn (cols : List Column) (cid : String) (n : Note) : List Column :=
  cols.map fun c => if c.id == cid then { c with notes := c.notes ++ [n] } else c

/-- `main.py:97` — `' '.join(word.capitalize() for word in speaker.split())`. -/
def dcwTitle (speaker : List Char) : String :=
  String.mk (joinSpace ((pySplitWs speaker).map capitalizeCs))

/-- `main.py:99-117` — emit the trimmed paragraph: resolve or create the
column for `title` through `column_map` and append a fresh note to it, to
the flat note list, and advance the note counter. -/
def dcwEmit (st : DcwState) (title : String) (paragraph : List Char) : DcwState :=
  match st.columnMap.find? (fun p => p.1 == title) with
  | some p =>
    { st with
      columns := appendNoteToColumn st.columns p.2
        ⟨"note-" ++ toString st.noteCounter, String.mk paragraph, p.2⟩
      notes := st.notes ++ [⟨"note-" ++ toString st.noteCounter, String.mk paragraph, p.2⟩]
      noteCounter := st.noteCounter + 1
      currentParagraph := [] }
  | none =>
    { st with
      columns := appendNoteToColumn
        (st.columns ++ [⟨"column-" ++ toString (st.columns.length + 1), title, []⟩])
        ("column-" ++ toString (st.columns.length + 1))
        ⟨"note-" ++ toString st.noteCounter, String.mk paragraph,
          "column-" ++ toString (st.columns.length + 1)⟩
      columnMap := st.columnMap ++ [(title, "column-" ++ toString (st.columns.length + 1))]
      notes := st.notes ++ [⟨"note-" ++ toString st.noteCounter, String.mk paragraph,
        "column-" ++ toString (st.columns.length + 1)⟩]
      noteCounter := st.noteCounter + 1
      currentParagraph := [] }

/-- `main.py:94-118` (duplicated at `main.py:122-146`) — flush the paragraph
in progress: when a speaker is set and the paragraph list is non-empty, join
and trim it, and if the result is non-empty and its title not excluded,
emit it; the paragraph buffer is reset in every flushing branch. -/
def dcwFlush (st : DcwState) : DcwState :=
  match st.currentSpeaker with
  | none => st
  | some sp =>
    if st.currentParagraph.isEmpty then st
    else if (stripCs (joinNl st.currentParagraph)).isEmpty then { st with currentParagraph := [] }
    else if dcwTitle sp ∈ excludedColumns then { st with currentParagraph := [] }
    else dcwEmit st (dcwTitle sp) (stripCs (joinNl st.currentParagraph))

/-- `main.py:88-151` — one iteration of the segmenter loop over a raw line
(the line is rstripped first, `main.py:89`). -/
def dcwStep (st : DcwState) (rawLine : List Char) : DcwState :=
  if isSpeakerLine (rstripCs rawLine) then
    { dcwFlush st with currentSpeaker := some (lowerCs (rstripCs rawLine)) }
  else if (rstripCs rawLine).isEmpty then
    dcwFlush st
  else
    match st.currentSpeaker with
    | none => st
    | some _ =>
      if isPrefixCs "[".data (rstripCs rawLine) || isPrefixCs "(".data (rstripCs rawLine) ||
          isPrefixCs "archived recording".data (rstripCs rawLine) then st
      else { st with currentParagraph := st.currentParagraph ++ [rstripCs rawLine] }

/-- `main.py:68-74` — index of the first line matching the two-token speaker
regex (applied to the raw, un-rstripped line); `0` when no line matches. -/
def dcwStartIndex (lines : List (List Char)) : Nat :=
  match lines.findIdx? (fun l => matchTwoAlphaTokens (lowerCs l)) with
  | some i => i
  | none => 0

/-- `main.py:74` — `conversation_lines`, the lines from the first detected
speaker line onward. -/
def dcwConvLines (content : String) : List (List Char) :=
  let lines := splitLinesCs (stripCs content.data)
  lines.drop (dcwStartIndex lines)

/-- The segmenter state after the loop `for line in conversation_lines + ['']`. -/
def dcwFinalState (content : String) : DcwState :=
  (dcwConvLines content ++ [[]]).foldl dcwStep dcwInit

/-- `main.py:162-163` — `random.choice(['smoothstep', 'ellipsis', 'yes', 'no'])`,
with the PRNG draw for edge `i` supplied by the oracle. -/
def dcwEdgeType (choice : Nat → Nat) (i : Nat) : String :=
  ["smoothstep", "ellipsis", "yes", "no"].getD (choice i % 4) "smoothstep"

/-- `main.py:155-191` — build the edge from note `i` to note `i+1`. -/
def dcwEdge (choice : Nat → Nat) (i : Nat) (s t : Note) : Edge :=
  if s.columnId == t.columnId then
    ⟨"edge-" ++ toString (i + 1), s.id, t.id, some "bottom", some "top", dcwEdgeType choice i⟩
  else if colIdxOfId s.columnId < colIdxOfId t.columnId then
    ⟨"edge-" ++ toString (i + 1), s.id, t.id, some "right", some "left", dcwEdgeType choice i⟩
  else
    ⟨"edge-" ++ toString (i + 1), s.id, t.id, some "left", some "right", dcwEdgeType choice i⟩

/-- Sequential edges over consecutive note pairs, `i` counting from `k`. -/
def dcwEdgesAux (choice : Nat → Nat) (k : Nat) : List Note → List Edge
  | a :: b :: rest => dcwEdge choice k a b :: dcwEdgesAux choice (k + 1) (b :: rest)
  | _ => []

/-- `main.py:154-191` — the sequential edge list. -/
def dcwEdges (choice : Nat → Nat) (notes : List Note) : List Edge :=
  dcwEdgesAux choice 0 notes

/-- `parse_daily_covids_wake_transcript`, from the in-memory file content and
the PRNG oracle, to the returned `{columns, edges}` graph (`main.py:193-196`). -/
def parse_daily_covids_wake_transcript (content : String) (choice : Nat → Nat) :
    TranscriptGraph :=
  ⟨(dcwFinalState content).columns, dcwEdges choice (dcwFinalState content).notes⟩

/-! ## `parse_transcript_to_notes` (`main.py:198-279`) -/

/-- `re.match(r'^([A-Z][A-Z\s]+):\s*(.*)', line)`: an uppercase letter, then a
non-empty run of uppercase letters and whitespace, then a colon; returns the
stripped speaker name (group 1) and the stripped remainder (group 2, after the
greedy `\s*`).  The run `[A-Z\s]+` cannot contain `:`, so greedy matching is
deterministic and the colon must be the first character outside the class. -/
def matchCapsColon (cs : List Char) : Option (List Char × List Char) :=
  match cs with
  | [] => none
  | c :: rest =>
    if isAsciiUpper c then
      let body := rest.takeWhile (fun x => isAsciiUpper x || pySpace x)
      let r1 := rest.dropWhile (fun x => isAsciiUpper x || pySpace x)
      if body.isEmpty then none
      else
        match r1 with
        | ':' :: tail => some (stripCs (c :: body), stripCs (tail.dropWhile pySpace))
        | _ => none
    else none

/-- `main.py:225-227` — the fuzzy aliasing test: case-insensitively, one name
is a substring of the other, or the two names share the same last
whitespace-separated token. -/
def fuzzyAlias (speaker existing : List Char) : Bool :=
  isInfixCs (lowerCs speaker) (lowerCs existing) ||
  isInfixCs (lowerCs existing) (lowerCs speaker) ||
  lowerCs ((pySplitWs speaker).getLastD []) == lowerCs ((pySplitWs existing).getLastD [])

/-- `main.py:220-236` — resolve a raw speaker name through `speaker_mapping`
(an insertion-ordered dict `raw name → normalized name`): an exact key hit
returns its value; otherwise the first existing value passing `fuzzyAlias`
(in insertion order) is adopted, falling back to the name itself, and the
mapping is extended. -/
def normalizeSpeaker (mapping : List (List Char × List Char)) (name : List Char) :
    List Char × List (List Char × List Char) :=
  match mapping.find? (fun p => p.1 == name) with
  | some p => (p.2, mapping)
  | none =>
    let normalized := ((mapping.map (fun p => p.2)).find? (fun ex => fuzzyAlias name ex)).getD name
    (normalized, mapping ++ [(name, normalized)])

/-- Loop state of `parse_transcript_to_notes` (`main.py:201-207`). -/
structure PttnState where
  columns : List Column
  mapping : List (List Char × List Char)
  noteCounter : Nat
  deriving Repr

/-- `main.py:209-260` — one iteration over a raw line (stripped first,
`main.py:210`). -/
def pttnStep (st : PttnState) (rawLine : List Char) : PttnState :=
  if (stripCs rawLine).isEmpty then st
  else
    match matchCapsColon (stripCs rawLine) with
    | none => st
    | some sc =>
      match st.columns.find?
          (fun col => col.title == String.mk (normalizeSpeaker st.mapping sc.1).1) with
      | some col =>
        ⟨appendNoteToColumn st.columns col.id
            ⟨"note-" ++ toString st.noteCounter, String.mk sc.2, col.id⟩,
          (normalizeSpeaker st.mapping sc.1).2, st.noteCounter + 1⟩
      | none =>
        ⟨appendNoteToColumn
            (st.columns ++ [⟨"column-" ++ toString (st.columns.length + 1),
              String.mk (normalizeSpeaker st.mapping sc.1).1, []⟩])
            ("column-" ++ toString (st.columns.length + 1))
            ⟨"note-" ++ toString st.noteCounter, String.mk sc.2,
              "column-" ++ toString (st.columns.length + 1)⟩,
          (normalizeSpeaker st.mapping sc.1).2, st.noteCounter + 1⟩

/-- Sequential edges of `main.py:268-274`: no handles, constant type. -/
def pttnEdgesAux (k : Nat) : List Note → List Edge
  | a :: b :: rest =>
    ⟨"edge-" ++ toString (k + 1), a.id, b.id, none, none, "smoothstep"⟩ ::
      pttnEdgesAux (k + 1) (b :: rest)
  | _ => []

/-- `main.py:262-265` — the flat note list is the concatenation of the
per-column note lists, in column order (not emission order). -/
def pttnAllNotes (cols : List Column) : List Note := (cols.map Column.notes).flatten

/-- `parse_transcript_to_notes` (`main.py:198-279`). -/
def parse_transcript_to_notes (text : String) : TranscriptGraph :=
  let lines := splitLinesCs (stripCs text.data)
  let st := lines.foldl pttnStep ⟨[], [], 1⟩
  ⟨st.columns, pttnEdgesAux 0 (pttnAllNotes st.columns)⟩

/-! ## Theorems -/

/-- Every edge built by `parse_transcript_to_notes` carries the constant
type `smoothstep`. -/
theorem pttnEdgesAux_smoothstep (k : Nat) (notes : List Note) :
    (pttnEdgesAux k notes).all (fun e => e.type == "smoothstep") = true := by
  induction notes generalizing k with
  | nil => rfl
  | cons a rest ih =>
    cases rest with
    | nil => rfl
    | cons b rest' => simp [pttnEdgesAux, ih]

/-- Claim C1: the claim that every generated edge type is one single constant
label and that the parse is deterministic on identical input fails on
`parse_daily_covids_wake_transcript`: the edge type is drawn from the global
PRNG (`random.choice` at `main.py:163`), so two calls on the very same text
can return different graphs.  On the concrete transcript
`"alice smith\nhello\n\nbob jones\nhi"`, draws `0` and `1` give edge types
`smoothstep` and `ellipsis` respectively, hence unequal outputs.  The other
parser, `parse_transcript_to_notes`, does satisfy the claim: its edge type is
the constant `smoothstep` for every input text. -/
theorem claim1_randomized_edge_type :
    (parse_daily_covids_wake_transcript "alice smith\nhello\n\nbob jones\nhi" (fun _ => 0) ≠
      parse_daily_covids_wake_transcript "alice smith\nhello\n\nbob jones\nhi" (fun _ => 1)) ∧
    ((parse_daily_covids_wake_transcript "alice smith\nhello\n\nbob jones\nhi"
        (fun _ => 0)).edges.map Edge.type = ["smoothstep"]) ∧
    ((parse_daily_covids_wake_transcript "alice smith\nhello\n\nbob jones\nhi"
        (fun _ => 1)).edges.map Edge.type = ["ellipsis"]) ∧
    (∀ text : String,
      (parse_transcript_to_notes text).edges.all (fun e => e.type == "smoothstep") = true) := by
  refine ⟨by decide, by decide, by decide, fun text => ?_⟩
  exact pttnEdgesAux_smoothstep 0 _

/-- Claim C2: the claim that the i-th edge connects the i-th and (i+1)-th
notes in emission order fails on `parse_transcript_to_notes`: despite the
comment "Sort notes by their order in the transcript" (`main.py:267`), the
flat note list is the concatenation of the per-column note lists
(`main.py:263-265`).  On `"ALICE: hi\nBOB: yo\nALICE: again"` the emitted
notes are note-1, note-2, note-3, but edge-1 connects note-1 to note-3 and
edge-2 connects note-3 to note-2, instead of the claimed path
note-1 → note-2 → note-3. -/
theorem claim2_edges_grouped_by_column :
    (parse_transcript_to_notes "ALICE: hi\nBOB: yo\nALICE: again").edges =
      [⟨"edge-1", "note-1", "note-3", none, none, "smoothstep"⟩,
       ⟨"edge-2", "note-3", "note-2", none, none, "smoothstep"⟩] ∧
    (parse_transcript_to_notes "ALICE: hi\nBOB: yo\nALICE: again").columns.map Column.notes =
      [[⟨"note-1", "hi", "column-1"⟩, ⟨"note-3", "again", "column-1"⟩],
       [⟨"note-2", "yo", "column-2"⟩]] := by
  constructor <;> decide

/-- Claim C3: the claim that a speaker whose normalized title equals a preset
column's title is assigned to that preset column fails: the preset columns are
never entered into `column_map` (`main.py:82`), so the first paragraph by
"michael barbaro" creates a fresh duplicate column `column-5` titled
"Michael Barbaro" and the preset `column-1` with the same title stays empty —
two columns now share one normalized title. -/
theorem claim3_preset_column_duplicated :
    parse_daily_covids_wake_transcript "michael barbaro\nhello" (fun _ => 0) =
      ⟨[⟨"column-1", "Michael Barbaro", []⟩,
        ⟨"column-2", "Stephen Macedo", []⟩,
        ⟨"column-3", "Frances Lee", []⟩,
        ⟨"column-4", "", []⟩,
        ⟨"column-5", "Michael Barbaro", [⟨"note-1", "hello", "column-5"⟩]⟩], []⟩ := by
  decide

/-- A lowercase ASCII letter is not Python whitespace. -/
theorem pySpace_eq_false_of_lower {c : Char} (h : isAsciiLower c = true) :
    pySpace c = false := by
  cases hsp : pySpace c with
  | false => rfl
  | true =>
    exfalso
    simp only [pySpace, Bool.or_eq_true, beq_iff_eq] at hsp
    rcases hsp with ((((rfl | rfl) | rfl) | rfl) | rfl) | rfl <;> exact absurd h (by decide)

/-- Python whitespace is not a lowercase ASCII letter. -/
theorem isAsciiLower_eq_false_of_space {c : Char} (h : pySpace c = true) :
    isAsciiLower c = false := by
  simp only [pySpace, Bool.or_eq_true, beq_iff_eq] at h
  rcases h with ((((rfl | rfl) | rfl) | rfl) | rfl) | rfl <;> decide

/-- `Char.toLower` fixes lowercase ASCII letters. -/
theorem toLower_fix_of_lower {c : Char} (h : isAsciiLower c = true) : c.toLower = c := by
  simp only [isAsciiLower, Bool.and_eq_true, decide_eq_true_eq] at h
  have h97 : 97 ≤ c.toNat := by
    have := h.1
    rw [Char.le_def, UInt32.le_def, BitVec.le_def] at this
    exact this
  unfold Char.toLower
  rw [if_neg]
  intro hc
  omega

/-- `Char.toLower` fixes Python whitespace. -/
theorem toLower_fix_of_space {c : Char} (h : pySpace c = true) : c.toLower = c := by
  simp only [pySpace, Bool.or_eq_true, beq_iff_eq] at h
  rcases h with ((((rfl | rfl) | rfl) | rfl) | rfl) | rfl <;> decide

/-- `lowerCs` fixes a string of characters each fixed by `Char.toLower`. -/
theorem lowerCs_fix {cs : List Char} (h : ∀ c ∈ cs, c.toLower = c) : lowerCs cs = cs := by
  induction cs with
  | nil => rfl
  | cons c cs ih =>
    simp only [lowerCs, List.map_cons] at ih ⊢
    rw [h c (List.mem_cons_self _ _), ih fun x hx => h x (List.mem_cons_of_mem _ hx)]

/-- The two-token regex accepts a line made of a lowercase run, a whitespace
run, and a second lowercase run, all non-empty. -/
theorem matchTwoAlphaTokens_append (a s b : List Char)
    (ha : a ≠ []) (hs : s ≠ []) (hb : b ≠ [])
    (hal : ∀ c ∈ a, isAsciiLower c = true)
    (hss : ∀ c ∈ s, pySpace c = true)
    (hbl : ∀ c ∈ b, isAsciiLower c = true) :
    matchTwoAlphaTokens (a ++ s ++ b) = true := by
  obtain ⟨s0, s', rfl⟩ := List.exists_cons_of_ne_nil hs
  obtain ⟨b0, b', rfl⟩ := List.exists_cons_of_ne_nil hb
  obtain ⟨a0, a', rfl⟩ := List.exists_cons_of_ne_nil ha
  have hs0 : pySpace s0 = true := hss s0 (List.mem_cons_self _ _)
  have hb0 : isAsciiLower b0 = true := hbl b0 (List.mem_cons_self _ _)
  have hns0 : ¬(isAsciiLower s0 = true) := by
    simp [isAsciiLower_eq_false_of_space hs0]
  have hnb0 : ¬(pySpace b0 = true) := by
    simp [pySpace_eq_false_of_lower hb0]
  have e0 : (a0 :: a') ++ (s0 :: s') ++ (b0 :: b')
      = (a0 :: a') ++ (s0 :: (s' ++ (b0 :: b'))) := by simp
  have t1 : ((a0 :: a') ++ (s0 :: (s' ++ (b0 :: b')))).takeWhile isAsciiLower
      = (a0 :: a') ++ [] := by
    rw [List.takeWhile_append_of_pos hal, List.takeWhile_cons_of_neg hns0]
  have d1 : ((a0 :: a') ++ (s0 :: (s' ++ (b0 :: b')))).dropWhile isAsciiLower
      = s0 :: (s' ++ (b0 :: b')) := by
    rw [List.dropWhile_append_of_pos hal, List.dropWhile_cons_of_neg hns0]
  have e1 : s0 :: (s' ++ (b0 :: b')) = (s0 :: s') ++ (b0 :: b') := by simp
  have t2 : ((s0 :: s') ++ (b0 :: b')).takeWhile pySpace = (s0 :: s') ++ [] := by
    rw [List.takeWhile_append_of_pos hss, List.takeWhile_cons_of_neg hnb0]
  have d2 : ((s0 :: s') ++ (b0 :: b')).dropWhile pySpace = b0 :: b' := by
    rw [List.dropWhile_append_of_pos hss, List.dropWhile_cons_of_neg hnb0]
  have t3 : (b0 :: b').takeWhile isAsciiLower = b0 :: b' :=
    List.takeWhile_eq_self_iff.mpr hbl
  have d3 : (b0 :: b').dropWhile isAsciiLower = [] :=
    List.dropWhile_eq_nil_iff.mpr hbl
  simp only [matchTwoAlphaTokens]
  rw [e0, t1, d1, e1, t2, d2, t3, d3]
  simp

/-- Claim C4 (counterexample): the claim asserts that a line of one or more
whitespace-separated alphabetic tokens — in particular a single-token name
line and a three-token name line — matches the speaker-label pattern, but the
regex `^([a-z]+\s+[a-z]+)$` (`main.py:70` and `main.py:91`) requires exactly
two tokens: `"alice"` and `"anna maria smith"` are both rejected. -/
theorem claim4_counterexample :
    isSpeakerLine "alice".data = false ∧ isSpeakerLine "anna maria smith".data = false := by
  constructor <;> decide

/-- Claim C4 (amended): a trimmed line consisting of exactly two
whitespace-separated alphabetic tokens alone on the line, with no trailing
punctuation or colon, is detected by the Segmenter as a speaker-label line
(shown generally for lowercase tokens, which is what the matcher sees after
`line.lower()`, and concretely for a mixed-case name); single-token and
three-token name lines, and a line with a trailing colon, do not match. -/
theorem claim4_two_token_rule :
    (∀ a s b : List Char, a ≠ [] → s ≠ [] → b ≠ [] →
      (∀ c ∈ a, isAsciiLower c = true) → (∀ c ∈ s, pySpace c = true) →
      (∀ c ∈ b, isAsciiLower c = true) →
      isSpeakerLine (a ++ s ++ b) = true) ∧
    isSpeakerLine "Alice Smith".data = true ∧
    isSpeakerLine "alice".data = false ∧
    isSpeakerLine "anna maria smith".data = false ∧
    isSpeakerLine "alice smith:".data = false := by
  refine ⟨fun a s b ha hs hb hal hss hbl => ?_, by decide, by decide, by decide, by decide⟩
  have hfix : lowerCs (a ++ s ++ b) = a ++ s ++ b := by
    refine lowerCs_fix fun c hc => ?_
    rcases List.mem_append.mp hc with hc' | hc'
    · rcases List.mem_append.mp hc' with h1 | h2
      · exact toLower_fix_of_lower (hal c h1)
      · exact toLower_fix_of_space (hss c h2)
    · exact toLower_fix_of_lower (hbl c hc')
  unfold isSpeakerLine
  rw [hfix]
  exact matchTwoAlphaTokens_append a s b ha hs hb hal hss hbl

/-- Witness for `claim4_two_token_rule` at the concrete line `"mary jones"`. -/
theorem claim4_witness :
    isSpeakerLine ("mary".data ++ " ".data ++ "jones".data) = true :=
  claim4_two_token_rule.1 "mary".data " ".data "jones".data
    (by decide) (by decide) (by decide) (by decide) (by decide) (by decide)

/-! ### Sequential-id invariants of `parse_daily_covids_wake_transcript` -/

/-- The column at 0-based position `i` carries id `column-<i+1>`: the number
in a column id equals the column's 1-based ordinal position. -/
def colIdsOk (cols : List Column) : Prop :=
  cols.map Column.id = (List.range cols.length).map (fun i => "column-" ++ toString (i + 1))

/-- The note at 0-based position `i` of the emission list carries id
`note-<i+1>`: emitted note ids are consecutive with no gaps. -/
def noteIdsOk (notes : List Note) : Prop :=
  notes.map Note.id = (List.range notes.length).map (fun i => "note-" ++ toString (i + 1))

/-- Loop invariant of the daily-covids-wake segmenter. -/
def DcwInv (st : DcwState) : Prop :=
  colIdsOk st.columns ∧ noteIdsOk st.notes ∧ st.noteCounter = st.notes.length + 1

/-- Appending a note to the column with a given id changes no column id. -/
theorem appendNote_map_id (cols : List Column) (cid : String) (n : Note) :
    (appendNoteToColumn cols cid n).map Column.id = cols.map Column.id := by
  unfold appendNoteToColumn
  rw [List.map_map]
  apply List.map_congr_left
  intro c _
  simp only [Function.comp]
  split <;> rfl

/-- Appending a note to a column preserves the number of columns. -/
theorem appendNote_length (cols : List Column) (cid : String) (n : Note) :
    (appendNoteToColumn cols cid n).length = cols.length := by
  simp [appendNoteToColumn]

theorem colIdsOk_appendNote {cols : List Column} (h : colIdsOk cols) (cid : String) (n : Note) :
    colIdsOk (appendNoteToColumn cols cid n) := by
  unfold colIdsOk at h ⊢
  rw [appendNote_map_id, appendNote_length]
  exact h

theorem colIdsOk_snoc {cols : List Column} (h : colIdsOk cols) (t : String) :
    colIdsOk (cols ++ [⟨"column-" ++ toString (cols.length + 1), t, []⟩]) := by
  unfold colIdsOk at h ⊢
  rw [List.map_append, List.length_append, h]
  simp [List.range_succ]

theorem noteIdsOk_snoc {ns : List Note} (h : noteIdsOk ns) (content cid : String) :
    noteIdsOk (ns ++ [⟨"note-" ++ toString (ns.length + 1), content, cid⟩]) := by
  unfold noteIdsOk at h ⊢
  rw [List.map_append, List.length_append, h]
  simp [List.range_succ]

/-- The emit step preserves the sequential-id invariant. -/
theorem dcwEmit_inv {st : DcwState} (h : DcwInv st) (title : String) (paragraph : List Char) :
    DcwInv (dcwEmit st title paragraph) := by
  obtain ⟨hc, hn, hcount⟩ := h
  unfold dcwEmit
  split
  · refine ⟨colIdsOk_appendNote hc _ _, ?_, ?_⟩
    · show noteIdsOk (st.notes ++ [⟨"note-" ++ toString st.noteCounter, _, _⟩])
      rw [hcount]
      exact noteIdsOk_snoc hn _ _
    · show st.noteCounter + 1 = (st.notes ++ [_]).length + 1
      simp [hcount]
  · refine ⟨colIdsOk_appendNote (colIdsOk_snoc hc _) _ _, ?_, ?_⟩
    · show noteIdsOk (st.notes ++ [⟨"note-" ++ toString st.noteCounter, _, _⟩])
      rw [hcount]
      exact noteIdsOk_snoc hn _ _
    · show st.noteCounter + 1 = (st.notes ++ [_]).length + 1
      simp [hcount]

/-- The flush step preserves the sequential-id invariant. -/
theorem dcwFlush_inv {st : DcwState} (h : DcwInv st) : DcwInv (dcwFlush st) := by
  unfold dcwFlush
  split
  · exact h
  · split
    · exact h
    · split
      · exact ⟨h.1, h.2.1, h.2.2⟩
      · split
        · exact ⟨h.1, h.2.1, h.2.2⟩
        · exact dcwEmit_inv h _ _

/-- The per-line step preserves the sequential-id invariant. -/
theorem dcwStep_inv {st : DcwState} (h : DcwInv st) (line : List Char) :
    DcwInv (dcwStep st line) := by
  unfold dcwStep
  split
  · exact ⟨(dcwFlush_inv h).1, (dcwFlush_inv h).2.1, (dcwFlush_inv h).2.2⟩
  · split
    · exact dcwFlush_inv h
    · split
      · exact h
      · split
        · exact h
        · exact ⟨h.1, h.2.1, h.2.2⟩

/-- The whole loop preserves the sequential-id invariant. -/
theorem foldl_dcwStep_inv (lines : List (List Char)) {st : DcwState} (h : DcwInv st) :
    DcwInv (lines.foldl dcwStep st) := by
  induction lines generalizing st with
  | nil => exact h
  | cons l ls ih => exact ih (dcwStep_inv h l)

theorem dcwInit_inv : DcwInv dcwInit := by
  refine ⟨?_, ?_, rfl⟩
  · unfold colIdsOk
    decide
  · unfold noteIdsOk
    decide

theorem dcwFinalState_inv (content : String) : DcwInv (dcwFinalState content) :=
  foldl_dcwStep_inv _ dcwInit_inv

/-- The `i`-th element of the sequential edge list is the edge built from the
notes at positions `i` and `i+1`, with the running index offset by `k`. -/
theorem dcwEdgesAux_get (choice : Nat → Nat) :
    ∀ (notes : List Note) (k i : Nat), i + 1 < notes.length →
      (dcwEdgesAux choice k notes)[i]? =
        some (dcwEdge choice (k + i) (notes.getD i noNote) (notes.getD (i + 1) noNote))
  | [], _, i, h => by simp at h
  | [a], _, i, h => by simp at h
  | a :: b :: rest, k, 0, h => by simp [dcwEdgesAux]
  | a :: b :: rest, k, i + 1, h => by
    have h' : i + 1 < (b :: rest).length := by
      simp only [List.length_cons] at h ⊢
      omega
    have e1 : k + 1 + i = k + (i + 1) := by omega
    simp only [dcwEdgesAux, List.getElem?_cons_succ]
    rw [dcwEdgesAux_get choice (b :: rest) (k + 1) i h', e1]
    simp only [List.getD_cons_succ]

/-- Claim C5: the claim that every consecutive-pair edge gets the
bottom/top or right/left or left/right handle assignment fails on
`parse_transcript_to_notes`: its edge dicts carry no `sourceHandle` or
`targetHandle` key at all (`main.py:269-274`) — the first conjunct evaluates
it on a two-note transcript and the one edge has no handles.  The other
parser, `parse_daily_covids_wake_transcript`, does implement the claimed
rule: for consecutive notes in the same column the edge uses `bottom`/`top`;
across columns, when the source column's ordinal position is smaller than the
target's it uses `right`/`left`, and when larger `left`/`right`.  The code
compares the integers parsed from the column ids (`main.py:172-173`); the
final conjunct shows these numbers are exactly the 1-based ordinal positions
of the columns in the output. -/
theorem claim5_edge_handles :
    ((parse_transcript_to_notes "ALICE: hi\nBOB: yo").edges =
      [⟨"edge-1", "note-1", "note-2", none, none, "smoothstep"⟩]) ∧
    (∀ (choice : Nat → Nat) (i : Nat) (s t : Note), s.columnId = t.columnId →
      (dcwEdge choice i s t).sourceHandle = some "bottom" ∧
      (dcwEdge choice i s t).targetHandle = some "top") ∧
    (∀ (choice : Nat → Nat) (i : Nat) (s t : Note), s.columnId ≠ t.columnId →
      colIdxOfId s.columnId < colIdxOfId t.columnId →
      (dcwEdge choice i s t).sourceHandle = some "right" ∧
      (dcwEdge choice i s t).targetHandle = some "left") ∧
    (∀ (choice : Nat → Nat) (i : Nat) (s t : Note), s.columnId ≠ t.columnId →
      colIdxOfId t.columnId < colIdxOfId s.columnId →
      (dcwEdge choice i s t).sourceHandle = some "left" ∧
      (dcwEdge choice i s t).targetHandle = some "right") ∧
    (∀ (choice : Nat → Nat) (notes : List Note) (i : Nat), i + 1 < notes.length →
      (dcwEdges choice notes)[i]? =
        some (dcwEdge choice i (notes.getD i noNote) (notes.getD (i + 1) noNote))) ∧
    (∀ (content : String) (choice : Nat → Nat),
      (parse_daily_covids_wake_transcript content choice).columns.map Column.id =
        (List.range (parse_daily_covids_wake_transcript content choice).columns.length).map
          (fun i => "column-" ++ toString (i + 1))) := by
  refine ⟨by decide, fun choice i s t h => ?_, fun choice i s t hne hlt => ?_,
    fun choice i s t hne hgt => ?_, fun choice notes i h => ?_, fun content choice => ?_⟩
  · constructor <;> simp [dcwEdge, h]
  · have hb : (s.columnId == t.columnId) = false := by simp [hne]
    constructor <;> simp [dcwEdge, hb, hlt]
  · have hb : (s.columnId == t.columnId) = false := by simp [hne]
    have hnl : ¬colIdxOfId s.columnId < colIdxOfId t.columnId := by omega
    constructor <;> simp [dcwEdge, hb, hnl]
  · simpa using dcwEdgesAux_get choice notes 0 i h
  · exact (dcwFinalState_inv content).1

/-- Witness for `claim5_edge_handles` at concrete notes and columns. -/
theorem claim5_witness :
    (dcwEdge (fun _ => 0) 0 ⟨"note-1", "a", "column-2"⟩
        ⟨"note-2", "b", "column-2"⟩).sourceHandle = some "bottom" ∧
    (dcwEdge (fun _ => 0) 0 ⟨"note-1", "a", "column-1"⟩
        ⟨"note-2", "b", "column-3"⟩).sourceHandle = some "right" ∧
    (dcwEdge (fun _ => 0) 0 ⟨"note-1", "a", "column-3"⟩
        ⟨"note-2", "b", "column-1"⟩).sourceHandle = some "left" ∧
    (dcwEdges (fun _ => 0) [⟨"note-1", "a", "column-1"⟩, ⟨"note-2", "b", "column-3"⟩])[0]? =
      some (dcwEdge (fun _ => 0) 0 ⟨"note-1", "a", "column-1"⟩ ⟨"note-2", "b", "column-3"⟩) :=
  ⟨(claim5_edge_handles.2.1 (fun _ => 0) 0 ⟨"note-1", "a", "column-2"⟩
      ⟨"note-2", "b", "column-2"⟩ rfl).1,
   (claim5_edge_handles.2.2.1 (fun _ => 0) 0 ⟨"note-1", "a", "column-1"⟩
      ⟨"note-2", "b", "column-3"⟩ (by decide) (by decide)).1,
   (claim5_edge_handles.2.2.2.1 (fun _ => 0) 0 ⟨"note-1", "a", "column-3"⟩
      ⟨"note-2", "b", "column-1"⟩ (by decide) (by decide)).1,
   claim5_edge_handles.2.2.2.2.1 (fun _ => 0)
     [⟨"note-1", "a", "column-1"⟩, ⟨"note-2", "b", "column-3"⟩] 0 (by decide)⟩

/-- Claim C6: a blank line (one that rstrips to empty) only runs the flush:
the flush never changes `current_speaker`, and content after the blank line
is still attributed to the same speaker — concretely,
`"alice smith\nhello\n\nworld"` yields two notes in the same column joined by
a `bottom`/`top` edge. -/
theorem claim6_blank_line_keeps_speaker :
    (∀ (st : DcwState) (rawLine : List Char), rstripCs rawLine = [] →
      dcwStep st rawLine = dcwFlush st) ∧
    (∀ st : DcwState, (dcwFlush st).currentSpeaker = st.currentSpeaker) ∧
    parse_daily_covids_wake_transcript "alice smith\nhello\n\nworld" (fun _ => 0) =
      ⟨[⟨"column-1", "Michael Barbaro", []⟩, ⟨"column-2", "Stephen Macedo", []⟩,
        ⟨"column-3", "Frances Lee", []⟩, ⟨"column-4", "", []⟩,
        ⟨"column-5", "Alice Smith",
          [⟨"note-1", "hello", "column-5"⟩, ⟨"note-2", "world", "column-5"⟩]⟩],
       [⟨"edge-1", "note-1", "note-2", some "bottom", some "top", "smoothstep"⟩]⟩ := by
  refine ⟨fun st rawLine h => ?_, fun st => ?_, by decide⟩
  · unfold dcwStep
    rw [h]
    simp [show isSpeakerLine ([] : List Char) = false from by decide]
  · unfold dcwFlush
    split
    · rfl
    · split
      · rfl
      · split
        · rfl
        · split
          · rfl
          · unfold dcwEmit
            split <;> rfl

/-- Witness for `claim6_blank_line_keeps_speaker` on a whitespace-only line. -/
theorem claim6_witness : dcwStep dcwInit "  ".data = dcwFlush dcwInit :=
  claim6_blank_line_keeps_speaker.1 dcwInit "  ".data (by decide)

/-- Claim C7: a flush whose speaker title is excluded changes neither the
columns, nor the emitted notes, nor the note counter; consequently (second
conjunct, for every input) emitted note ids are exactly `note-1`, `note-2`, …
with no gaps; concretely, after a "background reading" paragraph is dropped
the next paragraph still gets `note-1`. -/
theorem claim7_excluded_titles :
    (∀ (st : DcwState) (sp : List Char), st.currentSpeaker = some sp →
      dcwTitle sp ∈ excludedColumns →
      (dcwFlush st).columns = st.columns ∧ (dcwFlush st).notes = st.notes ∧
      (dcwFlush st).noteCounter = st.noteCounter) ∧
    (∀ content : String, noteIdsOk (dcwFinalState content).notes) ∧
    (parse_daily_covids_wake_transcript "background reading\nblah\n\nmichael barbaro\nhi"
        (fun _ => 0)).columns.map (fun c => c.notes.map Note.id) =
      [[], [], [], [], ["note-1"]] := by
  refine ⟨fun st sp hsp hex => ?_, fun content => (dcwFinalState_inv content).2.1, by decide⟩
  unfold dcwFlush
  rw [hsp]
  by_cases hpe : st.currentParagraph.isEmpty
  · simp [hpe]
  · by_cases hpp : (stripCs (joinNl st.currentParagraph)).isEmpty
    · simp [hpe, hpp]
    · simp [hpe, hpp, hex]

/-- Witness for `claim7_excluded_titles` on a state about to flush a
"background reading" paragraph. -/
theorem claim7_witness :
    (dcwFlush ⟨presetColumns, [], [], 1, some "background reading".data,
        ["blah".data]⟩).notes = [] ∧
    (dcwFlush ⟨presetColumns, [], [], 1, some "background reading".data,
        ["blah".data]⟩).noteCounter = 1 :=
  ⟨(claim7_excluded_titles.1 _ "background reading".data rfl (by decide)).2.1,
   (claim7_excluded_titles.1 _ "background reading".data rfl (by decide)).2.2⟩

/-- Claim C8: the loop runs over `conversation_lines + ['']` (`main.py:88`),
so the final state is one synthetic-blank-line step after the fold over the
conversation lines; and that step, whenever a speaker is set and the joined
trimmed paragraph is non-empty and not excluded, appends the pending
paragraph as a fresh note — a trailing paragraph is never lost. -/
theorem claim8_final_flush :
    (∀ content : String,
      dcwFinalState content = dcwStep ((dcwConvLines content).foldl dcwStep dcwInit) []) ∧
    (∀ (st : DcwState) (sp : List Char), st.currentSpeaker = some sp →
      stripCs (joinNl st.currentParagraph) ≠ [] →
      dcwTitle sp ∉ excludedColumns →
      ∃ cid : String, (dcwStep st []).notes =
        st.notes ++ [⟨"note-" ++ toString st.noteCounter,
          String.mk (stripCs (joinNl st.currentParagraph)), cid⟩]) := by
  constructor
  · intro content
    unfold dcwFinalState
    rw [List.foldl_append]
    rfl
  · intro st sp hsp hne hex
    have hstep : dcwStep st [] = dcwFlush st := by
      unfold dcwStep
      simp [show isSpeakerLine ([] : List Char) = false from by decide,
        show rstripCs ([] : List Char) = [] from rfl]
    rw [hstep]
    unfold dcwFlush
    rw [hsp]
    have hpe : st.currentParagraph.isEmpty = false := by
      cases hp : st.currentParagraph with
      | nil => exact absurd (by rw [hp]; rfl) hne
      | cons x xs => rfl
    have hppe : (stripCs (joinNl st.currentParagraph)).isEmpty = false := by
      cases hq : stripCs (joinNl st.currentParagraph) with
      | nil => exact absurd hq hne
      | cons y ys => rfl
    simp only [hpe, hppe, Bool.false_eq_true, if_false, hex, ite_false]
    unfold dcwEmit
    cases hf : st.columnMap.find? (fun p => p.1 == dcwTitle sp) with
    | some p => exact ⟨p.2, rfl⟩
    | none => exact ⟨"column-" ++ toString (st.columns.length + 1), rfl⟩

/-- Witness for `claim8_final_flush` on a state holding a pending
"alice smith" paragraph. -/
theorem claim8_witness :
    ∃ cid : String,
      (dcwStep ⟨presetColumns, [], [], 1, some "alice smith".data, ["hi".data]⟩ []).notes =
        [] ++ [⟨"note-" ++ toString (1 : Nat),
          String.mk (stripCs (joinNl ["hi".data])), cid⟩] :=
  claim8_final_flush.2 ⟨presetColumns, [], [], 1, some "alice smith".data, ["hi".data]⟩
    "alice smith".data rfl (by decide) (by decide)

/-! ### Well-formedness of `parse_transcript_to_notes` output -/

/-- A graph is well-formed when every note's `columnId` is the id of one of
the graph's columns. -/
def graphWf (g : TranscriptGraph) : Bool :=
  g.columns.all fun c => c.notes.all fun n => g.columns.any fun c2 => c2.id == n.columnId

/-- Well-formedness of a column list: every held note references one of the
list's column ids. -/
def colsWf (cols : List Column) : Prop :=
  ∀ c ∈ cols, ∀ n ∈ c.notes, n.columnId ∈ cols.map Column.id

/-- Membership in `appendNoteToColumn`: every column of the result is a
column of the input, possibly with the new note appended. -/
theorem mem_appendNoteToColumn {cols : List Column} {cid : String} {nn : Note} {c' : Column}
    (h : c' ∈ appendNoteToColumn cols cid nn) :
    ∃ c ∈ cols, c' = c ∨ c' = { c with notes := c.notes ++ [nn] } := by
  unfold appendNoteToColumn at h
  obtain ⟨c, hc, hfc⟩ := List.mem_map.mp h
  refine ⟨c, hc, ?_⟩
  by_cases hid : (c.id == cid) = true
  · right
    rw [← hfc, if_pos hid]
  · left
    rw [← hfc, if_neg hid]

/-- The per-line step of `parse_transcript_to_notes` preserves
well-formedness of the column list. -/
theorem pttnStep_wf {st : PttnState} (h : colsWf st.columns) (line : List Char) :
    colsWf (pttnStep st line).columns := by
  unfold pttnStep
  split
  · exact h
  · split
    · exact h
    · split
      · rename_i sc col hfind
        intro c' hc' n hn
        rw [appendNote_map_id]
        obtain ⟨c, hc, hcc⟩ := mem_appendNoteToColumn hc'
        rcases hcc with rfl | rfl
        · exact h c' hc n hn
        · rcases List.mem_append.mp hn with hn' | hn'
          · exact h c hc n hn'
          · rw [List.mem_singleton.mp hn']
            exact List.mem_map.mpr ⟨col, List.mem_of_find?_eq_some hfind, rfl⟩
      · rename_i sc hfind
        intro c' hc' n hn
        rw [appendNote_map_id, List.map_append]
        obtain ⟨c, hc, hcc⟩ := mem_appendNoteToColumn hc'
        rcases List.mem_append.mp hc with hcold | hcnew
        · rcases hcc with rfl | rfl
          · exact List.mem_append_left _ (h c' hcold n hn)
          · rcases List.mem_append.mp hn with hn' | hn'
            · exact List.mem_append_left _ (h c hcold n hn')
            · rw [List.mem_singleton.mp hn']
              exact List.mem_append_right _ (by simp)
        · rw [List.mem_singleton.mp hcnew] at hcc
          rcases hcc with rfl | rfl
          · exact absurd hn (List.not_mem_nil n)
          · rcases List.mem_append.mp hn with hn' | hn'
            · exact absurd hn' (List.not_mem_nil n)
            · rw [List.mem_singleton.mp hn']
              exact List.mem_append_right _ (by simp)

/-- The whole loop of `parse_transcript_to_notes` preserves well-formedness. -/
theorem foldl_pttnStep_wf (lines : List (List Char)) {st : PttnState} (h : colsWf st.columns) :
    colsWf (lines.foldl pttnStep st).columns := by
  induction lines generalizing st with
  | nil => exact h
  | cons l ls ih => exact ih (pttnStep_wf h l)

/-- A well-formed column list makes a well-formed graph, whatever the edges. -/
theorem graphWf_of_colsWf {cols : List Column} (h : colsWf cols) (edges : List Edge) :
    graphWf ⟨cols, edges⟩ = true := by
  unfold graphWf
  simp only [List.all_eq_true]
  intro c hc n hn
  obtain ⟨c2, hc2, hid⟩ := List.mem_map.mp (h c hc n hn)
  simp only [List.any_eq_true]
  exact ⟨c2, hc2, by rw [hid]; exact beq_self_eq_true _⟩

/-- Claim C9: every input, however malformed, produces a well-formed graph
(shown for `parse_transcript_to_notes`: each note references an existing
column); the empty string yields `{columns: [], edges: []}` from
`parse_transcript_to_notes` and the preset column list with empty notes and
no edges from `parse_daily_covids_wake_transcript` — both parsers are total
functions, so no input raises an error. -/
theorem claim9_graceful_degradation :
    (∀ text : String, graphWf (parse_transcript_to_notes text) = true) ∧
    parse_transcript_to_notes "" = ⟨[], []⟩ ∧
    (∀ choice : Nat → Nat,
      parse_daily_covids_wake_transcript "" choice = ⟨presetColumns, []⟩) := by
  refine ⟨fun text => ?_, by decide, fun choice => rfl⟩
  have hwf : colsWf ((splitLinesCs (stripCs text.data)).foldl pttnStep ⟨[], [], 1⟩).columns :=
    foldl_pttnStep_wf _ (fun c hc => absurd hc (List.not_mem_nil c))
  exact graphWf_of_colsWf hwf _

/-- Claim C10: in `parse_transcript_to_notes`, a newly seen raw speaker name
is aliased to the first previously seen speaker (in mapping insertion order)
that passes the fuzzy test — case-insensitive substring in either direction
or equal last whitespace-separated token; in particular two distinct
speakers sharing a surname are merged into one column, as the concrete
transcript `"MICHAEL SMITH: hi\nSARAH SMITH: hello"` shows. -/
theorem claim10_fuzzy_alias :
    (∀ (mapping : List (List Char × List Char)) (name v : List Char),
      mapping.find? (fun p => p.1 == name) = none →
      (mapping.map (fun p => p.2)).find? (fun ex => fuzzyAlias name ex) = some v →
      normalizeSpeaker mapping name = (v, mapping ++ [(name, v)])) ∧
    (∀ a b : List Char, (a == b) = false → fuzzyAlias b a = true →
      normalizeSpeaker (normalizeSpeaker [] a).2 b = (a, [(a, a), (b, a)])) ∧
    (parse_transcript_to_notes "MICHAEL SMITH: hi\nSARAH SMITH: hello").columns =
      [⟨"column-1", "MICHAEL SMITH",
        [⟨"note-1", "hi", "column-1"⟩, ⟨"note-2", "hello", "column-1"⟩]⟩] := by
  refine ⟨fun mapping name v h1 h2 => ?_, fun a b hab hf => ?_, by decide⟩
  · unfold normalizeSpeaker
    rw [h1, h2]
    rfl
  · have h1 : normalizeSpeaker [] a = (a, [(a, a)]) := rfl
    rw [h1]
    unfold normalizeSpeaker
    simp [List.find?, hab, hf]

/-- Witness for `claim10_fuzzy_alias`: "SARAH SMITH" is aliased to the
previously seen "MICHAEL SMITH" through the shared surname. -/
theorem claim10_witness :
    normalizeSpeaker (normalizeSpeaker [] "MICHAEL SMITH".data).2 "SARAH SMITH".data =
      ("MICHAEL SMITH".data,
        [("MICHAEL SMITH".data, "MICHAEL SMITH".data),
         ("SARAH SMITH".data, "MICHAEL SMITH".data)]) :=
  claim10_fuzzy_alias.2.1 "MICHAEL SMITH".data "SARAH SMITH".data (by decide) (by decide)

end Riboflavin
